import Mathlib

/-!
Verification of `dulwich/contrib/diffstat.py`: a line-oriented parser that
recovers per-file change records from a git-style diff, and a formatter that
renders those records as a `git diff --stat`-like report.

Lines and the produced report are byte strings in the source; here a byte is
modelled as a `Char` (the inputs of interest are ASCII) and a byte string as
`List Char`.  Python `int` is modelled as `Int`, float ratio arithmetic as
exact rationals `ℚ`, and a raised `AssertionError` as `Option.none`.
-/

namespace Diffstat

attribute [local semireducible] Rat.mul Rat.add Rat.sub Rat.inv

/-- A raw line (byte string) of the diff: `bytes` in the source. -/
abbrev Line := List Char

/-- Byte-string literal helper: the characters of a Lean string literal. -/
def str (s : String) : Line := s.data

/-- Prefix constant `_GIT_HEADER_START = b"diff --git a/"`. -/
def _GIT_HEADER_START : Line := str "diff --git a/"

/-- Prefix constant `_GIT_BINARY_START = b"Binary file"`. -/
def _GIT_BINARY_START : Line := str "Binary file"

/-- Prefix constant `_GIT_RENAMEFROM_START = b"rename from"`. -/
def _GIT_RENAMEFROM_START : Line := str "rename from"

/-- Prefix constant `_GIT_RENAMETO_START = b"rename to"`. -/
def _GIT_RENAMETO_START : Line := str "rename to"

/-- Prefix constant `_GIT_CHUNK_START = b"@@"`. -/
def _GIT_CHUNK_START : Line := str "@@"

/-- Prefix constant `_GIT_ADDED_START = b"+"`. -/
def _GIT_ADDED_START : Line := str "+"

/-- Prefix constant `_GIT_DELETED_START = b"-"`. -/
def _GIT_DELETED_START : Line := str "-"

/-- Prefix constant `_GIT_UNCHANGED_START = b" "`. -/
def _GIT_UNCHANGED_START : Line := str " "

/-- The tail of `l` after the last (rightmost) occurrence of `pat` in `l`,
`none` when `pat` does not occur in `l`.  This is what the greedy regular
expression `a/(.*) b/(.*)` captures as group 2 once the fixed front has been
removed: greedy `(.*)` pushes the ` b/` separator as far right as possible. -/
def afterLastSub (pat : Line) : Line → Option Line
  | [] => if pat.isPrefixOf ([] : Line) then some (([] : Line).drop pat.length) else none
  | c :: cs =>
    match afterLastSub pat cs with
    | some r => some r
    | none =>
      if pat.isPrefixOf (c :: cs) then some ((c :: cs).drop pat.length) else none

/-- Group 2 of `_git_header_name = re.compile(rb"diff --git a/(.*) b/(.*)")`
searched on a line that starts with `"diff --git a/"`: the text after the last
`" b/"` of the remainder of the line; `none` when the regex does not match
(there is no `" b/"` separator), in which case `assert m` raises. -/
def _git_header_name (line : Line) : Option Line :=
  afterLastSub (str " b/") (line.drop _GIT_HEADER_START.length)

/-- The parser's mutable locals in `_parse_patch`: the three result lists and
the scanning state (`in_patch_chunk`, `in_git_header`, `binaryfile`,
`currentfile`, `added`, `deleted`). -/
structure ParseState where
  names : List Line
  nametypes : List Bool
  counts : List (Nat × Nat)
  in_patch_chunk : Bool
  in_git_header : Bool
  binaryfile : Bool
  currentfile : Option Line
  added : Nat
  deleted : Nat
deriving Repr, DecidableEq

/-- The locals' initial values at the top of `_parse_patch`. -/
def initState : ParseState :=
  { names := [], nametypes := [], counts := [],
    in_patch_chunk := false, in_git_header := false, binaryfile := false,
    currentfile := none, added := 0, deleted := 0 }

/-- Append the in-progress record to the three result lists, as done when a
new header begins and at end of input (`if currentfile is not None: ...`). -/
def flushCurrent (s : ParseState) : List Line × List Bool × List (Nat × Nat) :=
  match s.currentfile with
  | some f => (s.names ++ [f], s.nametypes ++ [s.binaryfile], s.counts ++ [(s.added, s.deleted)])
  | none => (s.names, s.nametypes, s.counts)

/-- One iteration of the `for line in lines` loop of `_parse_patch`: the
`if`/`elif` chain classifying the line, in source order.  `none` models an
`AssertionError` (`assert m` on a malformed header, `assert currentfile` —
Python truthiness: `None` or empty — on a `rename to` line). -/
def parseStep (s : ParseState) (line : Line) : Option ParseState :=
  if _GIT_HEADER_START.isPrefixOf line then
    let r := flushCurrent s
    match _git_header_name line with
    | some g2 =>
      some { names := r.1, nametypes := r.2.1, counts := r.2.2,
             currentfile := some g2, binaryfile := false,
             added := 0, deleted := 0,
             in_git_header := true, in_patch_chunk := false }
    | none => none
  else if _GIT_BINARY_START.isPrefixOf line && s.in_git_header then
    some { s with binaryfile := true, in_git_header := false }
  else if _GIT_RENAMEFROM_START.isPrefixOf line && s.in_git_header then
    some { s with currentfile := some (line.drop 12) }
  else if _GIT_RENAMETO_START.isPrefixOf line && s.in_git_header then
    match s.currentfile with
    | some f =>
      if f = [] then none
      else some { s with currentfile := some (f ++ str " => " ++ line.drop 10) }
    | none => none
  else if _GIT_CHUNK_START.isPrefixOf line && (s.in_patch_chunk || s.in_git_header) then
    some { s with in_patch_chunk := true, in_git_header := false }
  else if _GIT_ADDED_START.isPrefixOf line && s.in_patch_chunk then
    some { s with added := s.added + 1 }
  else if _GIT_DELETED_START.isPrefixOf line && s.in_patch_chunk then
    some { s with deleted := s.deleted + 1 }
  else if !(_GIT_UNCHANGED_START.isPrefixOf line) && s.in_patch_chunk then
    some { s with in_patch_chunk := false }
  else
    some s

/-- The whole `for` loop of `_parse_patch`, from a given state. -/
def runParse (s : ParseState) : List Line → Option ParseState
  | [] => some s
  | l :: ls =>
    match parseStep s l with
    | some s' => runParse s' ls
    | none => none

/-- `_parse_patch(lines)`: the loop from the initial state, then the
end-of-input flush of the in-progress record.  Returns the triple
`(names, nametypes, counts)`; `none` models an `AssertionError`. -/
def _parse_patch (lines : List Line) : Option (List Line × List Bool × List (Nat × Nat)) :=
  (runParse initState lines).map flushCurrent

/-- `b" " * n`. -/
def spaces (n : Nat) : Line := List.replicate n ' '

/-- `%-Ns`: left-justify to width `n`, padding with spaces on the right. -/
def padRight (l : Line) (n : Nat) : Line := l ++ spaces (n - l.length)

/-- `%Ns`: right-justify to width `n`, padding with spaces on the left. -/
def padLeft (l : Line) (n : Nat) : Line := spaces (n - l.length) ++ l

/-- `str(n)` for a non-negative integer: its decimal digits. -/
def natStr (n : Nat) : Line := Nat.toDigits 10 n

/-- The row template
`format = b" %-<namelen>s | %<statlen>s %s\n"` applied to
`(name, cnt, hist)`. -/
def fmtRow (namelen statlen : Nat) (name cnt hist : Line) : Line :=
  str " " ++ padRight name namelen ++ str " | " ++ padLeft cnt statlen ++
  str " " ++ hist ++ str "\n"

/-- The binary row template `binformat = b" %-<namelen>s | %s\n"` applied to
`(name, b"Bin")`. -/
def binRow (namelen : Nat) (name : Line) : Line :=
  str " " ++ padRight name namelen ++ str " | " ++ str "Bin" ++ str "\n"

/-- `namelen`: the running `max(namelen, len(filename))` over all records. -/
def namelenOf (names : List Line) : Nat :=
  names.foldl (fun m n => max m n.length) 0

/-- `maxdiff`: the running `max(maxdiff, i + d)` over all records.  (In
`diffstat` the loop runs over `enumerate(names)` indexing `counts[i]`; the
parser always returns `names` and `counts` of equal length, so folding over
`counts` is the same computation.) -/
def maxdiffOf (counts : List (Nat × Nat)) : Nat :=
  counts.foldl (fun m c => max m (c.1 + c.2)) 0

/-- `statlen = len(str(maxdiff))`: the stats column width. -/
def statlenOf (maxdiff : Nat) : Nat := (natStr maxdiff).length

/-- `sum(insert)`: the total of the insertion counts. -/
def sumIns (counts : List (Nat × Nat)) : Nat :=
  counts.foldl (fun a c => a + c.1) 0

/-- `sum(delete)`: the total of the deletion counts. -/
def sumDel (counts : List (Nat × Nat)) : Nat :=
  counts.foldl (fun a c => a + c.2) 0

/-- Python `int()` on a rational: truncation toward zero. -/
def pyInt (q : ℚ) : Int := if 0 ≤ q then q.floor else -(-q).floor

/-- The scaled branch's width computation for one side of the histogram
(`iwidth` from `insert[i]`, `dwidth` from `delete[i]`):
`ratio = (float(cnt) / maxdiff) * histwidth`, `w = int(ratio)`, forced up to
`1` when it truncated to `0` from a positive ratio below `1`; `0` when the
count is `0`.  Float arithmetic is modelled exactly over `ℚ`. -/
def scaledWidth (cnt maxdiff : Nat) (histwidth : Int) : Int :=
  if 0 < cnt then
    let ratio : ℚ := (cnt : ℚ) / (maxdiff : ℚ) * (histwidth : ℚ)
    let w := pyInt ratio
    if w = 0 ∧ 0 < ratio ∧ ratio < 1 then 1 else w
  else 0

/-- The histogram string of a non-binary row: verbatim `+`/`-` runs when
`maxdiff < histwidth`, otherwise the proportionally scaled runs
(`b"+" * int(iwidth) + b"-" * int(dwidth)`). -/
def histogram (ins del maxdiff : Nat) (histwidth : Int) : Line :=
  if (maxdiff : Int) < histwidth then
    List.replicate ins '+' ++ List.replicate del '-'
  else
    List.replicate (scaledWidth ins maxdiff histwidth).toNat '+' ++
    List.replicate (scaledWidth del maxdiff histwidth).toNat '-'

/-- One iteration of the output loop of `diffstat`: the row emitted for one
record.  `width = len(format % (b"", b"", b""))` and
`histwidth = max(2, max_width - width)` are computed in the non-binary
branch, exactly as in the source. -/
def renderRecord (namelen statlen maxdiff : Nat) (max_width : Int)
    (name : Line) (binaryfile : Bool) (ins del : Nat) : Line :=
  if binaryfile then
    binRow namelen name
  else
    let width : Int := ((fmtRow namelen statlen (str "") (str "") (str "")).length : Int)
    let histwidth : Int := max 2 (max_width - width)
    fmtRow namelen statlen name (natStr (ins + del)) (histogram ins del maxdiff histwidth)

/-- The final summary line
`b" %d files changed, %d insertions(+), %d deletions(-)"`. -/
def summaryLine (nfiles ins del : Nat) : Line :=
  str " " ++ natStr nfiles ++ str " files changed, " ++ natStr ins ++
  str " insertions(+), " ++ natStr del ++ str " deletions(-)"

/-- The formatting half of `diffstat`, applied to the parser's triple: the
first pass computing `namelen`/`maxdiff`/`statlen`, the row loop, and the
summary line.  (The loop reads `nametypes[i]`/`counts[i]` for `i` over
`enumerate(names)`; the three lists always have equal length here, which the
zip reproduces.) -/
def renderAll (names : List Line) (nametypes : List Bool)
    (counts : List (Nat × Nat)) (max_width : Int) : Line :=
  let namelen := namelenOf names
  let maxdiff := maxdiffOf counts
  let statlen := statlenOf maxdiff
  ((names.zip (nametypes.zip counts)).map
    (fun r => renderRecord namelen statlen maxdiff max_width r.1 r.2.1 r.2.2.1 r.2.2.2)).flatten
  ++ summaryLine names.length (sumIns counts) (sumDel counts)

/-- `diffstat(lines, max_width=80)`: parse then format; `none` when the
parser raises. -/
def diffstat (lines : List Line) (max_width : Int := 80) : Option Line :=
  (_parse_patch lines).map (fun r => renderAll r.1 r.2.1 r.2.2 max_width)

/-- The self-test fixture of `main`: `selftest.split(b"\n")`, the reference
diff of the spec, with the leading and trailing empty line the split
produces. -/
def selftestLines : List Line := [
  str "",
  str "diff --git a/docs/qt512.7_remove_bad_workaround.patch b/docs/qt512.7_remove_bad_workaround.patch",
  str "new file mode 100644",
  str "index 00000000..64e34192",
  str "--- /dev/null",
  str "+++ b/docs/qt512.7_remove_bad_workaround.patch",
  str "@@ -0,0 +1,15 @@",
  str "+--- qtbase/src/gui/kernel/qwindow.cpp.orig     2019-12-12 09:15:59.000000000 -0500",
  str "++++ qtbase/src/gui/kernel/qwindow.cpp  2020-01-10 10:36:53.000000000 -0500",
  str "+@@ -218,12 +218,6 @@",
  str "+     QGuiApplicationPrivate::window_list.removeAll(this);",
  str "+     if (!QGuiApplicationPrivate::is_app_closing)",
  str "+         QGuiApplicationPrivate::instance()->modalWindowList.removeOne(this);",
  str "+-",
  str "+-    // focus_window is normally cleared in destroy(), but the window may in",
  str "+-    // some cases end up becoming the focus window again. Clear it again",
  str "+-    // here as a workaround. See QTBUG-75326.",
  str "+-    if (QGuiApplicationPrivate::focus_window == this)",
  str "+-        QGuiApplicationPrivate::focus_window = 0;",
  str "+ \x7d",
  str "+",
  str "+ void QWindowPrivate::init(QScreen *targetScreen)",
  str "diff --git a/docs/testplugin_v017.zip b/docs/testplugin_v017.zip",
  str "new file mode 100644",
  str "index 00000000..a4cf4c4c",
  str "Binary files /dev/null and b/docs/testplugin_v017.zip differ",
  str "diff --git a/ci_scripts/macgddeploy.py b/ci_scripts/gddeploy.py",
  str "similarity index 73%",
  str "rename from ci_scripts/macgddeploy.py",
  str "rename to ci_scripts/gddeploy.py",
  str "index a512d075..f9dacd33 100644",
  str "--- a/ci_scripts/macgddeploy.py",
  str "+++ b/ci_scripts/gddeploy.py",
  str "@@ -1,19 +1,32 @@",
  str " #!/usr/bin/env python3",
  str "",
  str " import os",
  str "+import sys",
  str " import subprocess",
  str " import datetime",
  str " import shutil",
  str "+import glob",
  str "",
  str " gparent = os.path.expandvars('$GDRIVE_DIR')",
  str " grefresh_token = os.path.expandvars('$GDRIVE_REFRESH_TOKEN')",
  str "",
  str "-travis_branch = os.path.expandvars('$TRAVIS_BRANCH')",
  str "-travis_commit = os.path.expandvars('$TRAVIS_COMMIT')",
  str "-travis_build_number = os.path.expandvars('$TRAVIS_BUILD_NUMBER')",
  str "+if sys.platform.lower().startswith('darwin'):",
  str "+    travis_branch = os.path.expandvars('$TRAVIS_BRANCH')",
  str "+    travis_commit = os.path.expandvars('$TRAVIS_COMMIT')",
  str "+    travis_build_number = os.path.expandvars('$TRAVIS_BUILD_NUMBER')",
  str "+",
  str "+    origfilename = './bin/Sigil.tar.xz'",
  str "+    newfilename = './bin/Sigil-\x7b\x7d-\x7b\x7d-build_num-\x7b\x7d.tar.xz'.format(travis_branch, travis_commit[:7],travis_build_number)",
  str "+else:",
  str "+    appveyor_branch = os.path.expandvars('$APPVEYOR_REPO_BRANCH')",
  str "+    appveyor_commit = os.path.expandvars('$APPVEYOR_REPO_COMMIT')",
  str "+    appveyor_build_number = os.path.expandvars('$APPVEYOR_BUILD_NUMBER')",
  str "+    names = glob.glob('.\\\\installer\\\\Sigil-*-Setup.exe')",
  str "+    if not names:",
  str "+        exit(1)",
  str "+    origfilename = names[0]",
  str "+    newfilename = '.\\\\installer\\\\Sigil-\x7b\x7d-\x7b\x7d-build_num-\x7b\x7d-Setup.exe'.format(appveyor_branch, appveyor_commit[:7], appveyor_build_number)",
  str "",
  str "-origfilename = './bin/Sigil.tar.xz'",
  str "-newfilename = './bin/Sigil-\x7b\x7d-\x7b\x7d-build_num-\x7b\x7d.tar.xz'.format(travis_branch, travis_commit[:7],travis_build_number)",
  str " shutil.copy2(origfilename, newfilename)",
  str "",
  str " folder_name = datetime.date.today()",
  str "diff --git a/docs/qt512.6_backport_009abcd_fix.patch b/docs/qt512.6_backport_009abcd_fix.patch",
  str "deleted file mode 100644",
  str "index f4724347..00000000",
  str "--- a/docs/qt512.6_backport_009abcd_fix.patch",
  str "+++ /dev/null",
  str "@@ -1,26 +0,0 @@",
  str "---- qtbase/src/widgets/kernel/qwidget.cpp.orig 2019-11-08 10:57:07.000000000 -0500",
  str "-+++ qtbase/src/widgets/kernel/qwidget.cpp      2019-12-11 12:32:24.000000000 -0500",
  str "-@@ -8934,6 +8934,23 @@",
  str "-         \x7d",
  str "-     \x7d",
  str "-     switch (event->type()) \x7b",
  str "-+    case QEvent::PlatformSurface: \x7b",
  str "-+        // Sync up QWidget's view of whether or not the widget has been created",
  str "-+        switch (static_cast<QPlatformSurfaceEvent*>(event)->surfaceEventType()) \x7b",
  str "-+        case QPlatformSurfaceEvent::SurfaceCreated:",
  str "-+            if (!testAttribute(Qt::WA_WState_Created))",
  str "-+                create();",
  str "-+            break;",
  str "-+        case QPlatformSurfaceEvent::SurfaceAboutToBeDestroyed:",
  str "-+            if (testAttribute(Qt::WA_WState_Created)) \x7b",
  str "-+                // Child windows have already been destroyed by QWindow,",
  str "-+                // so we skip them here.",
  str "-+                destroy(false, false);",
  str "-+            \x7d",
  str "-+            break;",
  str "-+        \x7d",
  str "-+        break;",
  str "-+    \x7d",
  str "-     case QEvent::MouseMove:",
  str "-         mouseMoveEvent((QMouseEvent*)event);",
  str "-         break;",
  str "diff --git a/docs/Building_Sigil_On_MacOSX.txt b/docs/Building_Sigil_On_MacOSX.txt",
  str "index 3b41fd80..64914c78 100644",
  str "--- a/docs/Building_Sigil_On_MacOSX.txt",
  str "+++ b/docs/Building_Sigil_On_MacOSX.txt",
  str "@@ -113,7 +113,7 @@ install_name_tool -add_rpath @loader_path/../../Frameworks ./bin/Sigil.app/Content",
  str " ",
  str " # To test if the newly bundled python 3 version of Sigil is working properly ypou can do the following:",
  str " ",
  str "-1. download testplugin_v014.zip from https://github.com/Sigil-Ebook/Sigil/tree/master/docs",
  str "+1. download testplugin_v017.zip from https://github.com/Sigil-Ebook/Sigil/tree/master/docs",
  str " 2. open Sigil.app to the normal nearly blank template epub it generates when opened",
  str " 3. use Plugins->Manage Plugins menu and make sure the \"Use Bundled Python\" checkbox is checked",
  str " 4. use the \"Add Plugin\" button to navigate to and add testplugin.zip and then hit \"Okay\" to exit the Manage Plugins Dialog",
  str ""]

/-- The number of lines of the input that begin with `"diff --git a/"`. -/
def headerCount (lines : List Line) : Nat :=
  lines.countP (fun l => _GIT_HEADER_START.isPrefixOf l)

/-- Whether `pat` occurs as a contiguous substring of `l`. -/
def hasSub (pat l : Line) : Bool := (afterLastSub pat l).isSome

/-- `1` when a record is in progress (`currentfile is not None`), else `0`:
how many records the end-of-input flush would still append. -/
def pendingCount (s : ParseState) : Nat := if s.currentfile.isSome then 1 else 0

/-- The parser-state invariant maintained by every line transition: inside a
header block no hunk is open, the counts are zero and a file is in progress;
once `binaryfile` is set the counts are zero and stay frozen (neither header
nor hunk mode is active); the three result lists grow in lockstep; and every
already-emitted binary record carries counts `(0, 0)`. -/
def StateInv (s : ParseState) : Prop :=
  (s.in_git_header = true →
    s.in_patch_chunk = false ∧ s.added = 0 ∧ s.deleted = 0 ∧ s.currentfile.isSome = true) ∧
  (s.binaryfile = true →
    s.added = 0 ∧ s.deleted = 0 ∧ s.in_patch_chunk = false ∧ s.in_git_header = false) ∧
  s.names.length = s.nametypes.length ∧
  s.names.length = s.counts.length ∧
  (∀ p ∈ s.nametypes.zip s.counts, p.1 = true → p.2 = (0, 0))

/-- The spec's `maxdiff`: the maximum of insertions + deletions across the
non-binary records only (`0` when there are none).  Stated for comparison
with the code's `maxdiffOf`, which folds over all records. -/
def maxdiffNonBinary (types : List Bool) (counts : List (Nat × Nat)) : Nat :=
  ((types.zip counts).filter (fun p => !p.1)).foldl (fun m p => max m (p.2.1 + p.2.2)) 0

/-- The spec's insertion total taken over the non-binary records only.
Stated for comparison with the code's `sumIns` over all records. -/
def sumInsNonBinary (types : List Bool) (counts : List (Nat × Nat)) : Nat :=
  ((types.zip counts).filter (fun p => !p.1)).foldl (fun a p => a + p.2.1) 0

/-- The spec's deletion total taken over the non-binary records only. -/
def sumDelNonBinary (types : List Bool) (counts : List (Nat × Nat)) : Nat :=
  ((types.zip counts).filter (fun p => !p.1)).foldl (fun a p => a + p.2.2) 0

/-- The reference report `testoutput` that the fixture must produce. -/
def testoutput : Line :=
  str " docs/qt512.7_remove_bad_workaround.patch            | 15 ++++++++++++\n" ++
  str " docs/testplugin_v017.zip                            | Bin\n" ++
  str " ci_scripts/macgddeploy.py => ci_scripts/gddeploy.py |  0 \n" ++
  str " docs/qt512.6_backport_009abcd_fix.patch             | 26 ---------------------\n" ++
  str " docs/Building_Sigil_On_MacOSX.txt                   |  2 +-\n" ++
  str " 5 files changed, 16 insertions(+), 27 deletions(-)"

/-! Basic lemmas. -/

/-- `Rat.floor` agrees with the ambient `Int.floor` on `ℚ`. -/
theorem ratFloor_eq_intFloor (q : ℚ) : q.floor = ⌊q⌋ :=
  (Rat.floor_def' q).trans Rat.floor_def.symm

/-- On non-negative rationals, Python truncation is the floor. -/
theorem pyInt_of_nonneg {q : ℚ} (h : 0 ≤ q) : pyInt q = ⌊q⌋ := by
  rw [pyInt, if_pos h, ratFloor_eq_intFloor]

set_option maxRecDepth 100000 in
/-- C1: on the reference fixture diff — a new file with 15 insertions, a new
binary file, a rename with no content change, a deleted file with 26 removed
lines, and a modified file with 1 insertion and 1 deletion — the full
parse-then-format pipeline with the default `max_width` of 80 produces
exactly the reference 6-line byte report, ending in the summary line with no
trailing newline. -/
theorem selftest_pipeline_exact : diffstat selftestLines 80 = some testoutput := by
  decide

/-! Substring search: soundness and completeness of `afterLastSub`. -/

/-- A successful `afterLastSub` exhibits an occurrence of the pattern. -/
theorem afterLastSub_some {pat : Line} :
    ∀ {l r : Line}, afterLastSub pat l = some r → ∃ u, l = u ++ pat ++ r := by
  intro l
  induction l with
  | nil =>
    intro r h
    simp only [afterLastSub] at h
    split at h
    · next hp =>
      obtain rfl : pat = [] := List.prefix_nil.mp (List.isPrefixOf_iff_prefix.mp hp)
      obtain rfl : r = [] := by simpa using h.symm
      exact ⟨[], rfl⟩
    · cases h
  | cons c cs ih =>
    intro r h
    cases hrec : afterLastSub pat cs with
    | some r' =>
      simp only [afterLastSub, hrec] at h
      obtain rfl : r' = r := by simpa using h
      obtain ⟨u, hu⟩ := ih hrec
      exact ⟨c :: u, by simp [hu]⟩
    | none =>
      simp only [afterLastSub, hrec] at h
      split at h
      · next hp =>
        obtain ⟨t, ht⟩ := List.isPrefixOf_iff_prefix.mp hp
        refine ⟨[], ?_⟩
        have hdrop : (c :: cs).drop pat.length = t := by
          rw [← ht, List.drop_left]
        obtain rfl : r = t := by
          have h' := h.symm
          simp only [Option.some.injEq] at h'
          rw [h', hdrop]
        simp [← ht]
      · cases h

/-- A failing `afterLastSub` means the pattern occurs nowhere in the list. -/
theorem afterLastSub_none {pat : Line} :
    ∀ {l : Line}, afterLastSub pat l = none → ∀ u v, l ≠ u ++ pat ++ v := by
  intro l
  induction l with
  | nil =>
    intro h u v he
    obtain ⟨rfl, rfl, rfl⟩ : u = [] ∧ pat = [] ∧ v = [] := by
      constructor
      · exact List.append_eq_nil.mp (List.append_eq_nil.mp he.symm).1 |>.1
      constructor
      · exact List.append_eq_nil.mp (List.append_eq_nil.mp he.symm).1 |>.2
      · exact (List.append_eq_nil.mp he.symm).2
    simp [afterLastSub] at h
  | cons c cs ih =>
    intro h u v he
    cases hrec : afterLastSub pat cs with
    | some r' => simp [afterLastSub, hrec] at h
    | none =>
      simp only [afterLastSub, hrec] at h
      split at h
      · cases h
      · next hp =>
        cases u with
        | nil =>
          exact hp (List.isPrefixOf_iff_prefix.mpr ⟨v, by simpa using he.symm⟩)
        | cons d u' =>
          have hcs : cs = u' ++ pat ++ v := by
            have := he
            simp only [List.cons_append, List.cons.injEq] at this
            exact this.2
          exact ih hrec u' v hcs

/-- When `hasSub` reports `false`, no decomposition around the pattern
exists. -/
theorem hasSub_false_no_decomp {pat l : Line} (h : hasSub pat l = false) :
    ∀ u v, l ≠ u ++ pat ++ v := by
  have hnone : afterLastSub pat l = none := by
    cases e : afterLastSub pat l with
    | none => rfl
    | some r => rw [hasSub, e] at h; cases h
  exact afterLastSub_none hnone

/-- The concrete form of a well-shaped header line: when the executable check
finds no `" b/"` after the fixed front, no `a/<old> b/<new>` decomposition of
the line exists. -/
theorem no_header_decomp {line : Line}
    (h : hasSub (str " b/") (line.drop _GIT_HEADER_START.length) = false) :
    ¬∃ old nw : Line, line = _GIT_HEADER_START ++ old ++ str " b/" ++ nw := by
  rintro ⟨old, nw, rfl⟩
  rw [List.append_assoc, List.append_assoc, List.drop_left] at h
  exact hasSub_false_no_decomp h old (nw) (by simp [List.append_assoc])

/-- A header line with no `" b/"` separator fails the `assert m` from any
parser state. -/
theorem parseStep_malformed {line : Line}
    (hpre : _GIT_HEADER_START.isPrefixOf line = true)
    (hno : ¬∃ old nw : Line, line = _GIT_HEADER_START ++ old ++ str " b/" ++ nw) :
    ∀ s, parseStep s line = none := by
  intro s
  have hnone : _git_header_name line = none := by
    cases e : _git_header_name line with
    | none => rfl
    | some g2 =>
      exfalso
      obtain ⟨u, hu⟩ := afterLastSub_some e
      obtain ⟨t, ht⟩ := List.isPrefixOf_iff_prefix.mp hpre
      apply hno
      refine ⟨u, g2, ?_⟩
      have hdrop : line.drop _GIT_HEADER_START.length = t := by rw [← ht, List.drop_left]
      rw [hdrop] at hu
      rw [← ht, hu]
      simp [List.append_assoc]
  simp only [parseStep, hpre, hnone, if_true]

/-- Once some line of the input fails `parseStep` from every state, the whole
loop fails. -/
theorem runParse_mem_none {line : Line} (hstep : ∀ s, parseStep s line = none) :
    ∀ (lines : List Line) (s : ParseState), line ∈ lines → runParse s lines = none := by
  intro lines
  induction lines with
  | nil => intro s h; cases h
  | cons l ls ih =>
    intro s hmem
    rcases List.mem_cons.mp hmem with rfl | hmem'
    · simp [runParse, hstep s]
    · cases e : parseStep s l with
      | none => simp [runParse, e]
      | some s' => simpa [runParse, e] using ih s' hmem'

/-- C4: an input containing a line that begins with `"diff --git a/"` but has
no `" b/"` separator (so it does not decompose as
`diff --git a/<old> b/<new>`) makes the parser signal an unrecoverable parse
error for the whole input — `_parse_patch` and `diffstat` (for every
`max_width`) return no result at all rather than a partial report. -/
theorem malformed_header_fatal :
    ∀ (lines : List Line) (line : Line), line ∈ lines →
    _GIT_HEADER_START.isPrefixOf line = true →
    (¬∃ old nw : Line, line = _GIT_HEADER_START ++ old ++ str " b/" ++ nw) →
    _parse_patch lines = none ∧ ∀ w : Int, diffstat lines w = none := by
  intro lines line hmem hpre hno
  have h1 : runParse initState lines = none :=
    runParse_mem_none (parseStep_malformed hpre hno) lines initState hmem
  refine ⟨?_, ?_⟩
  · rw [_parse_patch, h1]; rfl
  · intro w; rw [diffstat, _parse_patch, h1]; rfl

/-- C4 witness: the single-line input `"diff --git a/foo"` (no `" b/"`) is
rejected outright. -/
theorem malformed_header_fatal_witness :
    _parse_patch [str "diff --git a/foo"] = none ∧
      ∀ w : Int, diffstat [str "diff --git a/foo"] w = none :=
  malformed_header_fatal [str "diff --git a/foo"] (str "diff --git a/foo")
    (List.mem_singleton.mpr rfl) (by decide) (no_header_decomp (by decide))

/-! The parser-state invariant and its preservation. -/

/-- Split a true boolean conjunction into its components. -/
theorem and_eq_true_split {a b : Bool} (h : (a && b) = true) : a = true ∧ b = true := by
  simp only [Bool.and_eq_true] at h
  exact h

/-- The initial state satisfies the invariant. -/
theorem initState_inv : StateInv initState := by
  refine ⟨by simp [initState], by simp [initState], rfl, rfl, ?_⟩
  intro p hp
  simp [initState] at hp

/-- Flushing the in-progress record keeps the three lists in lockstep and
keeps every binary record's counts at `(0, 0)`. -/
theorem flushCurrent_inv {s : ParseState} (hs : StateInv s) :
    (flushCurrent s).1.length = (flushCurrent s).2.1.length ∧
    (flushCurrent s).1.length = (flushCurrent s).2.2.length ∧
    (∀ p ∈ (flushCurrent s).2.1.zip (flushCurrent s).2.2, p.1 = true → p.2 = (0, 0)) := by
  obtain ⟨h1, h2, hl1, hl2, hpw⟩ := hs
  cases hc : s.currentfile with
  | none => exact ⟨by simp [flushCurrent, hc, hl1], by simp [flushCurrent, hc, hl2],
      by simpa [flushCurrent, hc] using hpw⟩
  | some f =>
    simp only [flushCurrent, hc]
    refine ⟨by simp [hl1], by simp [hl2], ?_⟩
    intro p hp hpt
    rw [List.zip_append (by rw [← hl1, hl2])] at hp
    rcases List.mem_append.mp hp with hold | hnew
    · exact hpw p hold hpt
    · have hpe : p = (s.binaryfile, (s.added, s.deleted)) := by simpa using hnew
      subst hpe
      obtain ⟨ha, hd, _, _⟩ := h2 hpt
      simp [ha, hd]

/-- Every one of the nine line transitions preserves the invariant. -/
theorem parseStep_inv {s s' : ParseState} {line : Line}
    (h : parseStep s line = some s') (hs : StateInv s) : StateInv s' := by
  obtain ⟨h1, h2, hl1, hl2, hpw⟩ := hs
  simp only [parseStep] at h
  split at h
  · -- a new "diff --git a/" header
    cases e : _git_header_name line with
    | none => rw [e] at h; cases h
    | some g2 =>
      rw [e] at h
      obtain rfl : _ = s' := Option.some.inj h
      obtain ⟨f1, f2, f3⟩ := flushCurrent_inv ⟨h1, h2, hl1, hl2, hpw⟩
      exact ⟨fun _ => ⟨rfl, rfl, rfl, rfl⟩, by simp, f1, f2, f3⟩
  · split at h
    · -- "Binary file" inside a header
      next hcond =>
      obtain rfl : _ = s' := Option.some.inj h
      obtain ⟨hpc, ha, hd, _⟩ := h1 (and_eq_true_split hcond).2
      exact ⟨by simp, fun _ => ⟨ha, hd, hpc, rfl⟩, hl1, hl2, hpw⟩
    · split at h
      · -- "rename from" inside a header
        next hcond =>
        obtain rfl : _ = s' := Option.some.inj h
        have hg : s.in_git_header = true := (and_eq_true_split hcond).2
        obtain ⟨hpc, ha, hd, _⟩ := h1 hg
        refine ⟨fun _ => ⟨hpc, ha, hd, rfl⟩, ?_, hl1, hl2, hpw⟩
        intro hb
        obtain ⟨_, _, _, hgh⟩ := h2 hb
        rw [hg] at hgh; cases hgh
      · split at h
        · -- "rename to" inside a header
          next hcond =>
          have hg : s.in_git_header = true := (and_eq_true_split hcond).2
          cases hc : s.currentfile with
          | none => simp only [hc] at h; exact Option.noConfusion h
          | some f =>
            simp only [hc] at h
            split at h
            · cases h
            · obtain rfl : _ = s' := Option.some.inj h
              obtain ⟨hpc, ha, hd, _⟩ := h1 hg
              refine ⟨fun _ => ⟨hpc, ha, hd, rfl⟩, ?_, hl1, hl2, hpw⟩
              intro hb
              obtain ⟨_, _, _, hgh⟩ := h2 hb
              rw [hg] at hgh; cases hgh
        · split at h
          · -- "@@" hunk marker
            next hcond =>
            obtain rfl : _ = s' := Option.some.inj h
            refine ⟨by simp, ?_, hl1, hl2, hpw⟩
            intro hb
            obtain ⟨ha, hd, hpc, hgh⟩ := h2 hb
            have hor := (and_eq_true_split hcond).2
            rw [hpc, hgh] at hor
            cases hor
          · split at h
            · -- added line inside a hunk
              next hcond =>
              obtain rfl : _ = s' := Option.some.inj h
              have hpc : s.in_patch_chunk = true := (and_eq_true_split hcond).2
              refine ⟨?_, ?_, hl1, hl2, hpw⟩
              · intro hg; obtain ⟨hpcf, _, _, _⟩ := h1 hg; rw [hpc] at hpcf; cases hpcf
              · intro hb; obtain ⟨_, _, hpcf, _⟩ := h2 hb; rw [hpc] at hpcf; cases hpcf
            · split at h
              · -- deleted line inside a hunk
                next hcond =>
                obtain rfl : _ = s' := Option.some.inj h
                have hpc : s.in_patch_chunk = true := (and_eq_true_split hcond).2
                refine ⟨?_, ?_, hl1, hl2, hpw⟩
                · intro hg; obtain ⟨hpcf, _, _, _⟩ := h1 hg; rw [hpc] at hpcf; cases hpcf
                · intro hb; obtain ⟨_, _, hpcf, _⟩ := h2 hb; rw [hpc] at hpcf; cases hpcf
              · split at h
                · -- a non-context line ends the hunk
                  obtain rfl : _ = s' := Option.some.inj h
                  refine ⟨?_, ?_, hl1, hl2, hpw⟩
                  · intro hg; obtain ⟨_, ha, hd, hsome⟩ := h1 hg; exact ⟨rfl, ha, hd, hsome⟩
                  · intro hb; obtain ⟨ha, hd, _, hgh⟩ := h2 hb; exact ⟨ha, hd, rfl, hgh⟩
                · -- any other line: no state change
                  obtain rfl : _ = s' := Option.some.inj h
                  exact ⟨h1, h2, hl1, hl2, hpw⟩

/-- The invariant holds after running the loop over any line sequence. -/
theorem runParse_inv :
    ∀ {lines : List Line} {s s' : ParseState},
      runParse s lines = some s' → StateInv s → StateInv s' := by
  intro lines
  induction lines with
  | nil =>
    intro s s' h hs
    obtain rfl : s = s' := Option.some.inj h
    exact hs
  | cons l ls ih =>
    intro s s' h hs
    cases e : parseStep s l with
    | none => simp [runParse, e] at h
    | some s1 =>
      simp only [runParse, e] at h
      exact ih h (parseStep_inv e hs)

/-- The result triple of a successful parse is in lockstep and its binary
records carry counts `(0, 0)`. -/
theorem parse_result_inv {lines names : List Line} {nametypes : List Bool}
    {counts : List (Nat × Nat)}
    (h : _parse_patch lines = some (names, nametypes, counts)) :
    names.length = nametypes.length ∧ names.length = counts.length ∧
      ∀ p ∈ nametypes.zip counts, p.1 = true → p.2 = (0, 0) := by
  rw [_parse_patch] at h
  cases e : runParse initState lines with
  | none => rw [e] at h; cases h
  | some sf =>
    rw [e] at h
    have hf : flushCurrent sf = (names, nametypes, counts) := Option.some.inj h
    obtain ⟨f1, f2, f3⟩ := flushCurrent_inv (runParse_inv e initState_inv)
    rw [hf] at f1 f2 f3
    exact ⟨f1, f2, f3⟩

/-! Record counting: one emitted record per header line. -/

/-- One transition changes `names.length + pendingCount` by exactly `1` on a
header line and `0` on every other line. -/
theorem parseStep_count {s s' : ParseState} {line : Line}
    (h : parseStep s line = some s') (hs : StateInv s) :
    s'.names.length + pendingCount s' =
      s.names.length + pendingCount s +
        (if _GIT_HEADER_START.isPrefixOf line then 1 else 0) := by
  obtain ⟨h1, _, _, _, _⟩ := hs
  simp only [parseStep] at h
  split at h
  · -- header: the pending record (if any) is flushed, a new one starts
    next hpre =>
    cases e : _git_header_name line with
    | none => rw [e] at h; cases h
    | some g2 =>
      rw [e] at h
      obtain rfl : _ = s' := Option.some.inj h
      rw [if_pos hpre]
      cases hc : s.currentfile with
      | none => simp [flushCurrent, hc, pendingCount]
      | some f => simp [flushCurrent, hc, pendingCount]
  · rw [if_neg (by assumption)]
    split at h
    · obtain rfl : _ = s' := Option.some.inj h; rfl
    · split at h
      · -- rename from: `currentfile` was already set (header mode)
        next hcond =>
        obtain rfl : _ = s' := Option.some.inj h
        obtain ⟨_, _, _, hsome⟩ := h1 (and_eq_true_split hcond).2
        simp [pendingCount, hsome]
      · split at h
        · -- rename to
          cases hc : s.currentfile with
          | none => simp only [hc] at h; exact Option.noConfusion h
          | some f =>
            simp only [hc] at h
            split at h
            · cases h
            · obtain rfl : _ = s' := Option.some.inj h
              simp [pendingCount, hc]
        · split at h
          · obtain rfl : _ = s' := Option.some.inj h; rfl
          · split at h
            · obtain rfl : _ = s' := Option.some.inj h; rfl
            · split at h
              · obtain rfl : _ = s' := Option.some.inj h; rfl
              · split at h
                · obtain rfl : _ = s' := Option.some.inj h; rfl
                · obtain rfl : _ = s' := Option.some.inj h; rfl

/-- Over the whole loop, records plus the still-pending one number exactly
the processed header lines. -/
theorem runParse_count :
    ∀ {lines : List Line} {s s' : ParseState},
      runParse s lines = some s' → StateInv s →
      s'.names.length + pendingCount s' =
        s.names.length + pendingCount s + headerCount lines := by
  intro lines
  induction lines with
  | nil =>
    intro s s' h _
    obtain rfl : s = s' := Option.some.inj h
    simp [headerCount]
  | cons l ls ih =>
    intro s s' h hs
    cases e : parseStep s l with
    | none => simp [runParse, e] at h
    | some s1 =>
      simp only [runParse, e] at h
      have hstep := parseStep_count e hs
      have hrest := ih h (parseStep_inv e hs)
      have hcur : headerCount (l :: ls) =
          headerCount ls + (if _GIT_HEADER_START.isPrefixOf l then 1 else 0) := by
        simp [headerCount, List.countP_cons]
      omega

/-- C7: a successful parse returns exactly one record per input line that
begins with `"diff --git a/"` — each header finalizes the previous
in-progress record and end-of-input finalizes the last — so the per-file row
count and the `N` of the summary line equal the header count. -/
theorem parse_record_count :
    ∀ (lines names : List Line) (nametypes : List Bool) (counts : List (Nat × Nat)),
    _parse_patch lines = some (names, nametypes, counts) →
    names.length = headerCount lines ∧ nametypes.length = headerCount lines ∧
      counts.length = headerCount lines := by
  intro lines names nametypes counts h
  have hli := parse_result_inv h
  rw [_parse_patch] at h
  cases e : runParse initState lines with
  | none => rw [e] at h; cases h
  | some sf =>
    rw [e] at h
    have hf : flushCurrent sf = (names, nametypes, counts) := Option.some.inj h
    have hcnt := runParse_count e initState_inv
    have hi0 : initState.names.length + pendingCount initState = 0 := rfl
    have hn : names.length = headerCount lines := by
      cases hc : sf.currentfile with
      | none =>
        have hnm : names = sf.names := by
          have hf' := hf; rw [flushCurrent, hc] at hf'; exact (congrArg Prod.fst hf').symm
        have hps : pendingCount sf = 0 := by simp [pendingCount, hc]
        rw [hnm]; omega
      | some f =>
        have hnm : names = sf.names ++ [f] := by
          have hf' := hf; rw [flushCurrent, hc] at hf'; exact (congrArg Prod.fst hf').symm
        have hps : pendingCount sf = 1 := by simp [pendingCount, hc]
        have hlen : names.length = sf.names.length + 1 := by rw [hnm]; simp
        omega
    exact ⟨hn, by rw [← hli.1, hn], by rw [← hli.2.1, hn]⟩

/-- C7 witness: one header line yields exactly one record. -/
theorem parse_record_count_witness :
    ([str "b"] : List Line).length = headerCount [str "diff --git a/a b/b"] ∧
      ([false] : List Bool).length = headerCount [str "diff --git a/a b/b"] ∧
      ([((0 : Nat), (0 : Nat))] : List (Nat × Nat)).length =
        headerCount [str "diff --git a/a b/b"] :=
  parse_record_count [str "diff --git a/a b/b"] [str "b"] [false] [(0, 0)] (by decide)

/-- C9: from the initial state, every reachable parser state has
`in_git_header` and `in_patch_chunk` mutually exclusive (their conjunction is
false) — the parser is always in exactly one of the three modes idle,
in-header, in-hunk. -/
theorem parser_modes_exclusive :
    ∀ (lines : List Line) (s : ParseState), runParse initState lines = some s →
    (s.in_git_header && s.in_patch_chunk) = false := by
  intro lines s h
  obtain ⟨h1, _, _, _, _⟩ := runParse_inv h initState_inv
  cases hg : s.in_git_header with
  | false => simp
  | true =>
    obtain ⟨hpc, _, _, _⟩ := h1 hg
    simp [hpc]

/-- C9 witness: the empty input reaches only the (exclusive) initial state. -/
theorem parser_modes_exclusive_witness :
    (initState.in_git_header && initState.in_patch_chunk) = false :=
  parser_modes_exclusive [] initState rfl

/-! Binary records: zero counts, special rendering, no effect on totals. -/

/-- Folds over all counts agree with folds over the non-binary entries when
every binary entry holds `(0, 0)` and the step ignores `(0, 0)`. -/
theorem foldl_filter_nonbinary (g : Nat → Nat × Nat → Nat) (hg : ∀ a, g a (0, 0) = a) :
    ∀ (ts : List Bool) (cs : List (Nat × Nat)), ts.length = cs.length →
    (∀ p ∈ ts.zip cs, p.1 = true → p.2 = (0, 0)) →
    ∀ a, cs.foldl g a = ((ts.zip cs).filter (fun p => !p.1)).foldl (fun m p => g m p.2) a := by
  intro ts
  induction ts with
  | nil =>
    intro cs hlen _ a
    cases cs with
    | nil => simp
    | cons c cs' => cases hlen
  | cons t ts' ih =>
    intro cs hlen hpw a
    cases cs with
    | nil => cases hlen
    | cons c cs' =>
      have hlen' : ts'.length = cs'.length := by simpa using hlen
      have hpw' : ∀ p ∈ ts'.zip cs', p.1 = true → p.2 = (0, 0) :=
        fun p hp => hpw p (by simp [hp])
      cases t with
      | true =>
        have hc : c = (0, 0) := hpw (true, c) (by simp) rfl
        subst hc
        simp only [List.zip_cons_cons, List.foldl_cons, List.filter_cons]
        rw [hg a]
        simpa using ih cs' hlen' hpw' a
      | false =>
        simp only [List.zip_cons_cons, List.foldl_cons, List.filter_cons]
        simpa using ih cs' hlen' hpw' (g a c)

/-- C2: every record a successful parse emits with `is_binary = true` has
both counts `0`; such a record is rendered through the `binformat` row with
the literal `"Bin"` marker (no count, no histogram); and the binary records
contribute nothing to the summary's insertion and deletion totals, which
equal the sums over the non-binary records alone. -/
theorem binary_records_inert :
    ∀ (lines names : List Line) (nametypes : List Bool) (counts : List (Nat × Nat)),
    _parse_patch lines = some (names, nametypes, counts) →
    (∀ p ∈ nametypes.zip counts, p.1 = true → p.2 = (0, 0)) ∧
    sumIns counts = sumInsNonBinary nametypes counts ∧
    sumDel counts = sumDelNonBinary nametypes counts ∧
    (∀ (namelen statlen maxdiff : Nat) (max_width : Int) (name : Line) (ins del : Nat),
      renderRecord namelen statlen maxdiff max_width name true ins del = binRow namelen name) := by
  intro lines names nametypes counts h
  obtain ⟨hl1, hl2, hpw⟩ := parse_result_inv h
  have hlen : nametypes.length = counts.length := by rw [← hl1, hl2]
  refine ⟨hpw, ?_, ?_, fun _ _ _ _ _ _ _ => rfl⟩
  · exact foldl_filter_nonbinary (fun a c => a + c.1) (fun a => by simp) nametypes counts
      hlen hpw 0
  · exact foldl_filter_nonbinary (fun a c => a + c.2) (fun a => by simp) nametypes counts
      hlen hpw 0

/-- C2 witness: a header followed by a `"Binary file"` line yields one binary
record with counts `(0, 0)` and inert totals. -/
theorem binary_records_inert_witness :
    (∀ p ∈ ([true] : List Bool).zip ([((0 : Nat), (0 : Nat))] : List (Nat × Nat)),
      p.1 = true → p.2 = (0, 0)) ∧
    sumIns [(0, 0)] = sumInsNonBinary [true] [(0, 0)] ∧
    sumDel [(0, 0)] = sumDelNonBinary [true] [(0, 0)] ∧
    (∀ (namelen statlen maxdiff : Nat) (max_width : Int) (name : Line) (ins del : Nat),
      renderRecord namelen statlen maxdiff max_width name true ins del = binRow namelen name) :=
  binary_records_inert [str "diff --git a/a b/b", str "Binary files a and b differ"]
    [str "b"] [true] [(0, 0)] (by decide)

/-- C5: for parser output, the code's `maxdiff` — the maximum of
`insertions + deletions` over all records, binary included — equals the
spec's maximum over the non-binary records only (`0` when none), so the
stats column width `statlen` and the scaling threshold agree as well. -/
theorem maxdiff_nonbinary_refinement :
    ∀ (lines names : List Line) (nametypes : List Bool) (counts : List (Nat × Nat)),
    _parse_patch lines = some (names, nametypes, counts) →
    maxdiffOf counts = maxdiffNonBinary nametypes counts ∧
      statlenOf (maxdiffOf counts) = statlenOf (maxdiffNonBinary nametypes counts) := by
  intro lines names nametypes counts h
  obtain ⟨hl1, hl2, hpw⟩ := parse_result_inv h
  have hlen : nametypes.length = counts.length := by rw [← hl1, hl2]
  have hmax : maxdiffOf counts = maxdiffNonBinary nametypes counts :=
    foldl_filter_nonbinary (fun m c => max m (c.1 + c.2)) (fun a => by simp) nametypes counts
      hlen hpw 0
  exact ⟨hmax, by rw [hmax]⟩

/-- C5 witness: with one binary and one non-binary record, both maxima are
the non-binary record's 0. -/
theorem maxdiff_nonbinary_refinement_witness :
    maxdiffOf [((0 : Nat), (0 : Nat))] = maxdiffNonBinary [true] [(0, 0)] ∧
      statlenOf (maxdiffOf [((0 : Nat), (0 : Nat))]) =
        statlenOf (maxdiffNonBinary [true] [(0, 0)]) :=
  maxdiff_nonbinary_refinement [str "diff --git a/a b/b", str "Binary files a and b differ"]
    [str "b"] [true] [(0, 0)] (by decide)

/-! Histogram width arithmetic. -/

/-- `scaledWidth` takes exactly one of three values: `0` for a zero count,
the truncated ratio, or the forced minimum `1` when a positive ratio below
`1` truncated to `0`. -/
theorem scaledWidth_spec (cnt maxdiff : Nat) (histwidth : Int)
    (h : 0 ≤ ((cnt : ℚ) / (maxdiff : ℚ)) * ((histwidth : ℚ))) :
    cnt = 0 ∧ scaledWidth cnt maxdiff histwidth = 0 ∨
    0 < cnt ∧ scaledWidth cnt maxdiff histwidth =
      ⌊((cnt : ℚ) / (maxdiff : ℚ)) * ((histwidth : ℚ))⌋ ∨
    0 < cnt ∧ scaledWidth cnt maxdiff histwidth = 1 ∧
      ((cnt : ℚ) / (maxdiff : ℚ)) * ((histwidth : ℚ)) < 1 ∧
      0 < ((cnt : ℚ) / (maxdiff : ℚ)) * ((histwidth : ℚ)) := by
  simp only [scaledWidth]
  split
  · next hc =>
    split
    · next hcond => exact Or.inr (Or.inr ⟨hc, rfl, hcond.2.2, hcond.2.1⟩)
    · next hcond => exact Or.inr (Or.inl ⟨hc, pyInt_of_nonneg h⟩)
  · next hc => exact Or.inl ⟨Nat.eq_zero_of_not_pos hc, rfl⟩

/-- `scaledWidth` is never negative when the width is. -/
theorem scaledWidth_nonneg {cnt maxdiff : Nat} {histwidth : Int}
    (hw : 0 ≤ histwidth) : 0 ≤ scaledWidth cnt maxdiff histwidth := by
  have hq : 0 ≤ ((cnt : ℚ) / (maxdiff : ℚ)) * ((histwidth : ℚ)) :=
    mul_nonneg (div_nonneg (Nat.cast_nonneg _) (Nat.cast_nonneg _)) (by exact_mod_cast hw)
  rcases scaledWidth_spec cnt maxdiff histwidth hq with ⟨_, he⟩ | ⟨_, he⟩ | ⟨_, he, _, _⟩
  · simp [he]
  · rw [he]; exact Int.floor_nonneg.mpr hq
  · simp [he]

/-- A positive count always produces width at least `1` (the floor guarantee
of the scaled branch). -/
theorem one_le_scaledWidth {cnt maxdiff : Nat} {histwidth : Int}
    (hcnt : 0 < cnt) (hmax : 0 < maxdiff) (hw : 0 < histwidth) :
    1 ≤ scaledWidth cnt maxdiff histwidth := by
  have hratio : 0 < ((cnt : ℚ) / (maxdiff : ℚ)) * ((histwidth : ℚ)) :=
    mul_pos (div_pos (by exact_mod_cast hcnt) (by exact_mod_cast hmax)) (by exact_mod_cast hw)
  rcases scaledWidth_spec cnt maxdiff histwidth hratio.le with
    ⟨hz, _⟩ | ⟨_, he⟩ | ⟨_, he, _, _⟩
  · omega
  · rw [he]
    have h0 : 0 ≤ ⌊((cnt : ℚ) / (maxdiff : ℚ)) * ((histwidth : ℚ))⌋ :=
      Int.floor_nonneg.mpr hratio.le
    rcases eq_or_lt_of_le h0 with heq | hlt
    · -- a zero floor of a positive ratio below 1 would have been forced to 1
      exfalso
      have hlt1 : ((cnt : ℚ) / (maxdiff : ℚ)) * ((histwidth : ℚ)) < 1 := by
        have := Int.lt_floor_add_one (((cnt : ℚ) / (maxdiff : ℚ)) * ((histwidth : ℚ)))
        rw [← heq] at this
        simpa using this
      -- but then scaledWidth = 1 ≠ ⌊ratio⌋ = 0; derive directly instead
      have hforced : scaledWidth cnt maxdiff histwidth = 1 := by
        simp only [scaledWidth]
        rw [if_pos hcnt, if_pos ⟨by rw [pyInt_of_nonneg hratio.le, ← heq], hratio, hlt1⟩]
      rw [hforced] at he
      omega
    · omega
  · rw [he]

/-- C3: in the row histogram as `diffstat` computes it (with
`histwidth = max 2 (max_width - width)`), a non-binary record with at least
one insertion always shows at least one `'+'`, and one with at least one
deletion at least one `'-'` — in the verbatim branch and in the scaled
branch with its truncation-to-zero override alike. -/
theorem histogram_marks_present :
    ∀ (namelen statlen maxdiff : Nat) (max_width : Int) (ins del : Nat),
    (0 < ins → '+' ∈ histogram ins del maxdiff
      (max 2 (max_width - ((fmtRow namelen statlen (str "") (str "") (str "")).length : Int)))) ∧
    (0 < del → '-' ∈ histogram ins del maxdiff
      (max 2 (max_width - ((fmtRow namelen statlen (str "") (str "") (str "")).length : Int)))) := by
  intro namelen statlen maxdiff max_width ins del
  have h2 : (2 : Int) ≤
      max 2 (max_width - ((fmtRow namelen statlen (str "") (str "") (str "")).length : Int)) :=
    le_max_left _ _
  have hH0 : (0 : Int) <
      max 2 (max_width - ((fmtRow namelen statlen (str "") (str "") (str "")).length : Int)) :=
    lt_of_lt_of_le (by norm_num) h2
  constructor
  · intro hins
    rw [histogram]
    split
    · exact List.mem_append_left _ (List.mem_replicate.mpr ⟨by omega, rfl⟩)
    · next hsc =>
      have hmd : 0 < maxdiff := by
        have hle : max 2 (max_width -
            ((fmtRow namelen statlen (str "") (str "") (str "")).length : Int)) ≤ (maxdiff : Int) :=
          le_of_not_lt hsc
        have : (0 : Int) < (maxdiff : Int) := lt_of_lt_of_le hH0 hle
        exact_mod_cast this
      have h1 := one_le_scaledWidth hins hmd hH0
      exact List.mem_append_left _ (List.mem_replicate.mpr ⟨by omega, rfl⟩)
  · intro hdel
    rw [histogram]
    split
    · exact List.mem_append_right _ (List.mem_replicate.mpr ⟨by omega, rfl⟩)
    · next hsc =>
      have hmd : 0 < maxdiff := by
        have hle : max 2 (max_width -
            ((fmtRow namelen statlen (str "") (str "") (str "")).length : Int)) ≤ (maxdiff : Int) :=
          le_of_not_lt hsc
        have : (0 : Int) < (maxdiff : Int) := lt_of_lt_of_le hH0 hle
        exact_mod_cast this
      have h1 := one_le_scaledWidth hdel hmd hH0
      exact List.mem_append_right _ (List.mem_replicate.mpr ⟨by omega, rfl⟩)

/-- C6: when no record has any changes (`maxdiff = 0`), the histogram width
`max 2 (max_width - width)` is at least 2 for every `max_width`, so every
non-binary record takes the verbatim branch and the scaling divisions by
`maxdiff` are never reached. -/
theorem maxdiff_zero_no_scaling :
    ∀ (namelen statlen : Nat) (max_width : Int) (ins del : Nat),
    (2 : Int) ≤
      max 2 (max_width - ((fmtRow namelen statlen (str "") (str "") (str "")).length : Int)) ∧
    histogram ins del 0
        (max 2 (max_width - ((fmtRow namelen statlen (str "") (str "") (str "")).length : Int))) =
      List.replicate ins '+' ++ List.replicate del '-' := by
  intro namelen statlen max_width ins del
  refine ⟨le_max_left _ _, ?_⟩
  rw [histogram, if_pos]
  exact lt_of_lt_of_le (by norm_num) (le_max_left _ _)

/-- C10: in the scaled branch (`histwidth ≤ maxdiff`, `2 ≤ histwidth`), for a
record with `ins + del ≤ maxdiff` the two bar widths — including the cases
where one or both truncated-to-zero ratios are forced up to `1` — always sum
to at most `histwidth` (ratio arithmetic over exact rationals), so the
rendered histogram never exceeds the width budget. -/
theorem scaled_histogram_within_width :
    ∀ (ins del maxdiff : Nat) (histwidth : Int),
    2 ≤ histwidth → histwidth ≤ (maxdiff : Int) → ins + del ≤ maxdiff →
    scaledWidth ins maxdiff histwidth + scaledWidth del maxdiff histwidth ≤ histwidth ∧
    (histogram ins del maxdiff histwidth).length ≤ histwidth.toNat := by
  intro ins del maxdiff histwidth h2 hwm hsum
  have hH0 : (0 : Int) < histwidth := lt_of_lt_of_le (by norm_num) h2
  have hmd : 0 < maxdiff := by
    have : (0 : Int) < (maxdiff : Int) := lt_of_lt_of_le hH0 hwm
    exact_mod_cast this
  have hMq : (0 : ℚ) < (maxdiff : ℚ) := by exact_mod_cast hmd
  have hHq : (0 : ℚ) < ((histwidth : ℚ)) := by exact_mod_cast hH0
  have hri0 : 0 ≤ ((ins : ℚ) / (maxdiff : ℚ)) * ((histwidth : ℚ)) :=
    mul_nonneg (div_nonneg (Nat.cast_nonneg _) (Nat.cast_nonneg _)) hHq.le
  have hrd0 : 0 ≤ ((del : ℚ) / (maxdiff : ℚ)) * ((histwidth : ℚ)) :=
    mul_nonneg (div_nonneg (Nat.cast_nonneg _) (Nat.cast_nonneg _)) hHq.le
  have hsumq : ((ins : ℚ) / (maxdiff : ℚ)) * ((histwidth : ℚ)) +
      ((del : ℚ) / (maxdiff : ℚ)) * ((histwidth : ℚ)) ≤ ((histwidth : ℚ)) := by
    have hcomb : ((ins : ℚ) / (maxdiff : ℚ)) * ((histwidth : ℚ)) +
        ((del : ℚ) / (maxdiff : ℚ)) * ((histwidth : ℚ)) =
        (((ins : ℚ) + (del : ℚ)) / (maxdiff : ℚ)) * ((histwidth : ℚ)) := by ring
    rw [hcomb]
    have hfrac : ((ins : ℚ) + (del : ℚ)) / (maxdiff : ℚ) ≤ 1 := by
      rw [div_le_one hMq]
      exact_mod_cast hsum
    calc (((ins : ℚ) + (del : ℚ)) / (maxdiff : ℚ)) * ((histwidth : ℚ))
        ≤ 1 * ((histwidth : ℚ)) := mul_le_mul_of_nonneg_right hfrac hHq.le
      _ = ((histwidth : ℚ)) := one_mul _
  have hmain : scaledWidth ins maxdiff histwidth + scaledWidth del maxdiff histwidth
      ≤ histwidth := by
    rcases scaledWidth_spec ins maxdiff histwidth hri0 with
      ⟨hiz, hie⟩ | ⟨hip, hie⟩ | ⟨hip, hie, hilt, hipos⟩ <;>
    rcases scaledWidth_spec del maxdiff histwidth hrd0 with
      ⟨hdz, hde⟩ | ⟨hdp, hde⟩ | ⟨hdp, hde, hdlt, hdpos⟩ <;>
    rw [hie, hde]
    · omega
    · -- 0 + ⌊rd⌋
      have : ((del : ℚ) / (maxdiff : ℚ)) * ((histwidth : ℚ)) ≤ ((histwidth : ℚ)) :=
        le_trans (le_add_of_nonneg_left hri0) hsumq
      have hfl := Int.floor_le_floor this
      rw [Int.floor_intCast] at hfl
      omega
    · omega
    · -- ⌊ri⌋ + 0
      have : ((ins : ℚ) / (maxdiff : ℚ)) * ((histwidth : ℚ)) ≤ ((histwidth : ℚ)) :=
        le_trans (le_add_of_nonneg_right hrd0) hsumq
      have hfl := Int.floor_le_floor this
      rw [Int.floor_intCast] at hfl
      omega
    · -- ⌊ri⌋ + ⌊rd⌋ ≤ ri + rd ≤ H
      have hfi := Int.floor_le (((ins : ℚ) / (maxdiff : ℚ)) * ((histwidth : ℚ)))
      have hfd := Int.floor_le (((del : ℚ) / (maxdiff : ℚ)) * ((histwidth : ℚ)))
      have hq : ((⌊((ins : ℚ) / (maxdiff : ℚ)) * ((histwidth : ℚ))⌋ +
          ⌊((del : ℚ) / (maxdiff : ℚ)) * ((histwidth : ℚ))⌋ : Int) : ℚ) ≤ ((histwidth : ℚ)) := by
        push_cast
        exact le_trans (add_le_add hfi hfd) hsumq
      exact_mod_cast hq
    · -- ⌊ri⌋ + 1: rd is positive, so ri < H strictly
      have hlt : ((ins : ℚ) / (maxdiff : ℚ)) * ((histwidth : ℚ)) < ((histwidth : ℚ)) :=
        lt_of_lt_of_le (lt_add_of_pos_right _ hdpos) hsumq
      have hfl : ⌊((ins : ℚ) / (maxdiff : ℚ)) * ((histwidth : ℚ))⌋ < histwidth :=
        Int.floor_lt.mpr (by exact_mod_cast hlt)
      omega
    · -- 1 + 0
      omega
    · -- 1 + ⌊rd⌋: ri is positive, so rd < H strictly
      have hlt : ((del : ℚ) / (maxdiff : ℚ)) * ((histwidth : ℚ)) < ((histwidth : ℚ)) :=
        lt_of_lt_of_le (lt_add_of_pos_left _ hipos) hsumq
      have hfl : ⌊((del : ℚ) / (maxdiff : ℚ)) * ((histwidth : ℚ))⌋ < histwidth :=
        Int.floor_lt.mpr (by exact_mod_cast hlt)
      omega
    · -- 1 + 1 ≤ histwidth
      omega
  refine ⟨hmain, ?_⟩
  rw [histogram, if_neg (not_lt.mpr hwm)]
  have hni := @scaledWidth_nonneg ins maxdiff histwidth hH0.le
  have hnd := @scaledWidth_nonneg del maxdiff histwidth hH0.le
  simp only [List.length_append, List.length_replicate]
  omega

/-- C10 witness: at `ins = del = 13`, `maxdiff = 26`, `histwidth = 21` the
scaled widths are `10 + 10 ≤ 21` and the bar fits. -/
theorem scaled_histogram_within_width_witness :
    scaledWidth 13 26 21 + scaledWidth 13 26 21 ≤ 21 ∧
      (histogram 13 13 26 21).length ≤ (21 : Int).toNat :=
  scaled_histogram_within_width 13 13 26 21 (by decide) (by decide) (by decide)

/-- C8: for any record list, the two report ingredients that depend on
`max_width` are only the histogram fields of non-binary rows: binary rows
are byte-identical for any two widths, every non-binary row under either
width is the same `fmtRow` shell — name padded to `namelenOf`, the count
right-aligned to `statlenOf`, both computed with no reference to
`max_width` — around some histogram, and the full outputs share the very
same summary line. -/
theorem output_width_independent :
    ∀ (names : List Line) (nametypes : List Bool) (counts : List (Nat × Nat)) (w1 w2 : Int),
    (∀ (name : Line) (ins del : Nat),
      renderRecord (namelenOf names) (statlenOf (maxdiffOf counts)) (maxdiffOf counts) w1
          name true ins del =
        renderRecord (namelenOf names) (statlenOf (maxdiffOf counts)) (maxdiffOf counts) w2
          name true ins del) ∧
    (∀ (name : Line) (ins del : Nat), ∃ h1 h2 : Line,
      renderRecord (namelenOf names) (statlenOf (maxdiffOf counts)) (maxdiffOf counts) w1
          name false ins del =
        fmtRow (namelenOf names) (statlenOf (maxdiffOf counts)) name (natStr (ins + del)) h1 ∧
      renderRecord (namelenOf names) (statlenOf (maxdiffOf counts)) (maxdiffOf counts) w2
          name false ins del =
        fmtRow (namelenOf names) (statlenOf (maxdiffOf counts)) name (natStr (ins + del)) h2) ∧
    (∃ rows1 rows2 : List Line,
      renderAll names nametypes counts w1 =
        rows1.flatten ++ summaryLine names.length (sumIns counts) (sumDel counts) ∧
      renderAll names nametypes counts w2 =
        rows2.flatten ++ summaryLine names.length (sumIns counts) (sumDel counts)) := by
  intro names nametypes counts w1 w2
  exact ⟨fun name ins del => rfl,
    fun name ins del => ⟨_, _, rfl, rfl⟩,
    ⟨_, _, rfl, rfl⟩⟩

end Diffstat
